import Mathlib

/-!
Verification of the export engine of the memoria-cursor repository
(`memoria_cursor/tools/export.py`, `memoria_cursor/core/entry.py`).

The Python code is shallowly embedded: strings that the chunked writer
slices are modelled as `List Char` (Python strings are sequences of
characters), rendered text is modelled with Lean `String`, Python dicts
used as insertion-ordered mappings are modelled as association lists,
and `datetime.fromisoformat`/`strftime` (an external library call) is a
parameter `parse : String → Option String` returning the formatted
`YYYY-MM-DD` date on success and `none` when parsing raises.
-/

set_option maxHeartbeats 1000000

namespace MemoriaCursor

/-- Git snapshot dictionary of an entry (`git_info`).  The renderer reads it
with `dict.get(key, default)`, hence optional fields. -/
structure GitInfo where
  current_commit : Option String
  branch : Option String
  is_clean : Option Bool
  deriving DecidableEq

/-- The Entry record of `memoria_cursor/core/entry.py` (fields as in the
dataclass; `timestamp` and `entry_id` are always set after construction). -/
structure Entry where
  entry_type : String
  title : String
  content : String
  tags : List String
  files_affected : List String
  llm_context : Option String
  git_info : Option GitInfo
  related_entries : List String
  timestamp : String
  entry_id : String
  deriving DecidableEq

/-- Python truthiness of an optional string (`None` and `""` are falsy). -/
def truthyStr : Option String → Bool
  | none => false
  | some s => s ≠ ""

/-- Python truthiness of an optional boolean (`None` is falsy). -/
def truthyBool : Option Bool → Bool
  | none => false
  | some b => b

/-- Python `dict.get(key, default)` on an optional field. -/
def getD (o : Option String) (dflt : String) : String :=
  match o with
  | some v => v
  | none => dflt

/-! ### The chunked writer (`LLMExporter._write_chunked`) -/

/-- Boundary marker `"\n### "` (start of a markdown subsection). -/
def md_sep : List Char := "\n### ".toList

/-- Boundary marker `"\nENTRADA:"` (start of a plain-text entry block). -/
def entry_sep : List Char := "\nENTRADA:".toList

/-- Boundary marker `"\n---\n"` (paragraph-level separator rule). -/
def rule_sep : List Char := "\n---\n".toList

/-- All indices of `s` at which `pat` occurs, in increasing order. -/
def matchPositions (s pat : List Char) : List Nat :=
  (List.range (s.length + 1)).filter (fun i => pat.isPrefixOf (s.drop i))

/-- Python `str.rfind`: the highest index at which `pat` occurs in `s`,
and `-1` when it does not occur. -/
def rfind (s pat : List Char) : Int :=
  match (matchPositions s pat).getLast? with
  | some i => (i : Int)
  | none => -1

/-- The separator search of `_write_chunked`:
`max(slice.rfind("\n### "), slice.rfind("\nENTRADA:"), slice.rfind("\n---\n"))`. -/
def sep_search (slice : List Char) : Int :=
  max (rfind slice md_sep) (max (rfind slice entry_sep) (rfind slice rule_sep))

/-- One iteration of the `_write_chunked` loop: the position `cut` chosen for
the window starting at `start`. -/
def cut_pos (content : List Char) (max_chars : Nat) (start : Nat) : Nat :=
  let endPos := min (start + max_chars) content.length
  let slice := (content.drop start).take (endPos - start)
  let sep := sep_search slice
  if sep ≤ 0 ∨ endPos = content.length then endPos else start + sep.toNat

/-- The `while start < content_len` loop of `_write_chunked`, with explicit
fuel (the loop advances `start` by at least one character per iteration when
`0 < max_chars`, so `content.length + 1` fuel is always enough). -/
def split_go (content : List Char) (max_chars : Nat) : Nat → Nat → List (List Char)
  | 0, _ => []
  | fuel + 1, start =>
    if start < content.length then
      let cut := cut_pos content max_chars start
      (content.drop start).take (cut - start) :: split_go content max_chars fuel cut
    else []

/-- The list `parts` accumulated by `_write_chunked` for an oversized
document. -/
def split_parts (content : List Char) (max_chars : Nat) : List (List Char) :=
  split_go content max_chars (content.length + 1) 0

/-- `LLMExporter._write_chunked`: returns the `(file name, file content)`
pairs written, in writing order, together with the returned path. -/
def write_chunked (export_dir filename_base : String) (content : List Char)
    (ext : String) (max_chars : Int) : List (String × List Char) × String :=
  if max_chars ≤ 0 ∨ (content.length : Int) ≤ max_chars then
    let name := export_dir ++ "/" ++ filename_base ++ "." ++ ext
    ([(name, content)], name)
  else
    let parts := split_parts content max_chars.toNat
    let files := parts.enum.map (fun p =>
      (export_dir ++ "/" ++ filename_base ++ "_part" ++ toString (p.1 + 1) ++ "." ++ ext, p.2))
    (files,
      match files with
      | f :: _ => f.1
      | [] => export_dir ++ "/" ++ filename_base ++ "." ++ ext)

/-! ### Basic facts about the splitting loop -/

theorem rfind_le (s pat : List Char) : rfind s pat ≤ (s.length : Int) := by
  unfold rfind
  cases h : (matchPositions s pat).getLast? with
  | none =>
    show (-1 : Int) ≤ (s.length : Int)
    omega
  | some i =>
    show (i : Int) ≤ (s.length : Int)
    have hmem : i ∈ matchPositions s pat := by
      rcases List.getLast?_eq_some_iff.mp h with ⟨ys, hys⟩
      rw [hys]; simp
    have : i ∈ List.range (s.length + 1) := List.mem_of_mem_filter hmem
    have := List.mem_range.mp this
    omega

theorem sep_search_le (slice : List Char) : sep_search slice ≤ (slice.length : Int) := by
  unfold sep_search
  exact max_le (rfind_le _ _) (max_le (rfind_le _ _) (rfind_le _ _))

theorem cut_pos_le (content : List Char) (max_chars start : Nat) :
    cut_pos content max_chars start ≤ min (start + max_chars) content.length := by
  simp only [cut_pos]
  split
  · exact le_refl _
  · rename_i h
    push_neg at h
    obtain ⟨hsep, _⟩ := h
    have hle := sep_search_le
      ((content.drop start).take (min (start + max_chars) content.length - start))
    have hlen : ((content.drop start).take
        (min (start + max_chars) content.length - start)).length
        ≤ min (start + max_chars) content.length - start := by
      rw [List.length_take]; exact min_le_left _ _
    omega

theorem lt_cut_pos (content : List Char) (max_chars start : Nat)
    (hm : 0 < max_chars) (hs : start < content.length) :
    start < cut_pos content max_chars start := by
  simp only [cut_pos]
  split
  · omega
  · rename_i h
    push_neg at h
    obtain ⟨hsep, _⟩ := h
    omega

theorem split_go_flatten (content : List Char) (max_chars : Nat) (hm : 0 < max_chars) :
    ∀ fuel start, content.length - start ≤ fuel →
      (split_go content max_chars fuel start).flatten = content.drop start := by
  intro fuel
  induction fuel with
  | zero =>
    intro start h
    have : content.length ≤ start := by omega
    simp [split_go, List.drop_eq_nil_of_le this]
  | succ fuel ih =>
    intro start h
    by_cases hs : start < content.length
    · have hcut := lt_cut_pos content max_chars start hm hs
      have hcutle := cut_pos_le content max_chars start
      simp only [split_go, if_pos hs, List.flatten_cons]
      rw [ih (cut_pos content max_chars start) (by omega)]
      have hdrop : content.drop (cut_pos content max_chars start) =
          (content.drop start).drop (cut_pos content max_chars start - start) := by
        rw [List.drop_drop]
        congr 1
        omega
      rw [hdrop, List.take_append_drop]
    · simp [split_go, if_neg hs, List.drop_eq_nil_of_le (by omega : content.length ≤ start)]

theorem split_go_length_le (content : List Char) (max_chars : Nat) :
    ∀ fuel start p, p ∈ split_go content max_chars fuel start → p.length ≤ max_chars := by
  intro fuel
  induction fuel with
  | zero => intro start p hp; simp [split_go] at hp
  | succ fuel ih =>
    intro start p hp
    by_cases hs : start < content.length
    · simp only [split_go, if_pos hs, List.mem_cons] at hp
      rcases hp with hp | hp
      · subst hp
        have hcutle := cut_pos_le content max_chars start
        have : ((content.drop start).take (cut_pos content max_chars start - start)).length ≤
            cut_pos content max_chars start - start := by
          rw [List.length_take]; exact min_le_left _ _
        omega
      · exact ih _ p hp
    · simp [split_go, if_neg hs] at hp

theorem split_go_cons (content : List Char) (max_chars fuel start : Nat)
    (hs : start < content.length) :
    split_go content max_chars (fuel + 1) start =
      (content.drop start).take (cut_pos content max_chars start - start) ::
        split_go content max_chars fuel (cut_pos content max_chars start) := by
  simp [split_go, if_pos hs]

theorem split_go_one_le (content : List Char) (max_chars : Nat) (fuel start : Nat)
    (hs : start < content.length) (hf : 1 ≤ fuel) :
    1 ≤ (split_go content max_chars fuel start).length := by
  obtain ⟨fuel2, rfl⟩ : ∃ f, fuel = f + 1 := ⟨fuel - 1, by omega⟩
  rw [split_go_cons content max_chars fuel2 start hs]
  simp

/-! ### The splitting algorithm as worded by the spec (for the refinement
claim): rightmost occurrence of each of the three markers, maximum of the
three (or not-found when all fail), cut at the boundary when it is strictly
after the window start and the window is not the final one. -/

/-- Modelled from the spec: the rightmost index at which the marker pattern
occurs within the window, `none` when it does not occur. -/
def spec_rightmost (s pat : List Char) : Option Nat :=
  (matchPositions s pat).max?

/-- Maximum of two optional indices (`none` means not found). -/
def omax : Option Nat → Option Nat → Option Nat
  | none, b => b
  | some i, none => some i
  | some i, some j => some (max i j)

/-- Modelled from the spec: the boundary for a window is the latest of the
rightmost occurrences of the three markers, regardless of which marker. -/
def spec_boundary (w : List Char) : Option Nat :=
  omax (spec_rightmost w md_sep) (omax (spec_rightmost w entry_sep) (spec_rightmost w rule_sep))

/-- Modelled from the spec: cut at the boundary when it lies strictly after
the window start and the window does not reach end-of-document, otherwise
cut exactly at the window end. -/
def spec_cut (content : List Char) (max_chars start : Nat) : Nat :=
  let endPos := min (start + max_chars) content.length
  match spec_boundary ((content.drop start).take (endPos - start)) with
  | some b => if 0 < b ∧ endPos ≠ content.length then start + b else endPos
  | none => endPos

/-- Modelled from the spec: repeatedly cut windows until the document is
consumed (with the same explicit fuel as `split_go`). -/
def spec_go (content : List Char) (max_chars : Nat) : Nat → Nat → List (List Char)
  | 0, _ => []
  | fuel + 1, start =>
    if start < content.length then
      (content.drop start).take (spec_cut content max_chars start - start) ::
        spec_go content max_chars fuel (spec_cut content max_chars start)
    else []

/-- Modelled from the spec: the list of segment contents, in part order. -/
def spec_parts (content : List Char) (max_chars : Nat) : List (List Char) :=
  spec_go content max_chars (content.length + 1) 0

/-- Reading of an optional index as the Python `rfind` result. -/
def optToInt : Option Nat → Int
  | some i => (i : Int)
  | none => -1

theorem matchPositions_sorted (s pat : List Char) :
    List.Pairwise (· < ·) (matchPositions s pat) :=
  (List.pairwise_lt_range _).filter _

theorem rfind_eq_spec (s pat : List Char) :
    rfind s pat = optToInt (spec_rightmost s pat) := by
  unfold rfind spec_rightmost optToInt
  cases h : (matchPositions s pat).getLast? with
  | none =>
    rw [List.getLast?_eq_none_iff.mp h]
    rfl
  | some i =>
    rcases List.getLast?_eq_some_iff.mp h with ⟨ys, hys⟩
    have hsorted := matchPositions_sorted s pat
    have hmax : ∀ b ∈ matchPositions s pat, b ≤ i := by
      intro b hb
      rw [hys] at hb hsorted
      rcases List.mem_append.mp hb with hb2 | hb2
      · have := (List.pairwise_append.mp hsorted).2.2 b hb2 i (List.mem_singleton.mpr rfl)
        omega
      · rw [List.mem_singleton.mp hb2]
    have hmem : i ∈ matchPositions s pat := by rw [hys]; simp
    have hm : (matchPositions s pat).max? = some i :=
      (List.max?_eq_some_iff Nat.le_refl max_choice (fun _ _ _ => max_le_iff)).mpr ⟨hmem, hmax⟩
    rw [hm]

theorem sep_search_eq_spec (w : List Char) :
    sep_search w = optToInt (spec_boundary w) := by
  unfold sep_search spec_boundary
  rw [rfind_eq_spec, rfind_eq_spec, rfind_eq_spec]
  generalize spec_rightmost w md_sep = a
  generalize spec_rightmost w entry_sep = b
  generalize spec_rightmost w rule_sep = c
  cases a <;> cases b <;> cases c <;> simp [omax, optToInt] <;> omega

theorem cut_pos_eq_spec (content : List Char) (max_chars start : Nat) :
    cut_pos content max_chars start = spec_cut content max_chars start := by
  simp only [cut_pos, spec_cut, sep_search_eq_spec]
  cases h : spec_boundary ((content.drop start).take
      (min (start + max_chars) content.length - start)) with
  | none =>
    simp only [optToInt]
    split_ifs with h1
    · rfl
    · omega
  | some b =>
    simp only [optToInt]
    split_ifs with h1 h2 h2 <;> omega

theorem split_go_eq_spec (content : List Char) (max_chars : Nat) :
    ∀ fuel start, split_go content max_chars fuel start = spec_go content max_chars fuel start := by
  intro fuel
  induction fuel with
  | zero => intro start; rfl
  | succ fuel ih =>
    intro start
    simp only [split_go, spec_go, cut_pos_eq_spec, ih]

theorem split_parts_eq_spec (content : List Char) (max_chars : Nat) :
    split_parts content max_chars = spec_parts content max_chars :=
  split_go_eq_spec content max_chars _ _

/-! ### Positions of the segments inside the document -/

/-- Offset of the `i`-th segment: total length of the segments before it. -/
def chunk_offset (ps : List (List Char)) (i : Nat) : Nat :=
  ((ps.take i).map List.length).sum

theorem flatten_eq_slices (ps : List (List Char)) :
    ∀ (c : List Char), ps.flatten = c →
      ∀ i (h : i < ps.length),
        ps.get ⟨i, h⟩ = (c.drop (chunk_offset ps i)).take (ps.get ⟨i, h⟩).length := by
  induction ps with
  | nil => intro c _ i h; simp at h
  | cons p rest ih =>
    intro c hc i h
    cases i with
    | zero =>
      subst hc
      show p = ((p ++ rest.flatten).drop (chunk_offset (p :: rest) 0)).take p.length
      have h0 : chunk_offset (p :: rest) 0 = 0 := rfl
      rw [h0, List.drop_zero, List.take_left]
    | succ i =>
      subst hc
      have hi : i < rest.length := by simpa using h
      have hrec := ih rest.flatten rfl i hi
      show rest.get ⟨i, hi⟩ =
        ((p ++ rest.flatten).drop (chunk_offset (p :: rest) (i + 1))).take (rest.get ⟨i, hi⟩).length
      have hoff : chunk_offset (p :: rest) (i + 1) = p.length + chunk_offset rest i := by
        simp [chunk_offset, List.take_cons]
      rw [hoff, ← List.drop_drop, List.drop_left]
      exact hrec

theorem map_snd_enum_map (f : Nat × List Char → String) (l : List (List Char)) :
    ((l.enum.map fun p => (f p, p.2)).map Prod.snd) = l := by
  rw [List.map_map]
  have h : (Prod.snd ∘ fun p : Nat × List Char => (f p, p.2)) = Prod.snd := rfl
  rw [h, List.enum_map_snd]

/-- The segment contents written by `_write_chunked`, in part order. -/
def segments (export_dir filename_base : String) (content : List Char)
    (ext : String) (max_chars : Int) : List (List Char) :=
  (write_chunked export_dir filename_base content ext max_chars).1.map Prod.snd

theorem segments_single (d b : String) (content : List Char) (ext : String) (max_chars : Int)
    (h : max_chars ≤ 0 ∨ (content.length : Int) ≤ max_chars) :
    segments d b content ext max_chars = [content] := by
  simp [segments, write_chunked, if_pos h]

theorem segments_chunked (d b : String) (content : List Char) (ext : String) (max_chars : Int)
    (h : ¬(max_chars ≤ 0 ∨ (content.length : Int) ≤ max_chars)) :
    segments d b content ext max_chars = split_parts content max_chars.toNat := by
  simp only [segments, write_chunked, if_neg h]
  exact map_snd_enum_map _ _

/-! ### Claims C1, C3, C4, C5 about the chunked writer -/

/-- C1: for every document and every `max_chars > 0`, the segments produced by
the chunked writer concatenate, in part order, to the document exactly, and
each segment is the contiguous slice of the document that starts at the total
length of the preceding segments (so the segments are contiguous,
non-overlapping slices). -/
theorem c1_roundtrip (d b : String) (content : List Char) (ext : String)
    (max_chars : Int) (hpos : 0 < max_chars) :
    (segments d b content ext max_chars).flatten = content
    ∧ ∀ i (h : i < (segments d b content ext max_chars).length),
        (segments d b content ext max_chars).get ⟨i, h⟩ =
          (content.drop (chunk_offset (segments d b content ext max_chars) i)).take
            ((segments d b content ext max_chars).get ⟨i, h⟩).length := by
  have hflat : (segments d b content ext max_chars).flatten = content := by
    by_cases h : max_chars ≤ 0 ∨ (content.length : Int) ≤ max_chars
    · rw [segments_single d b content ext max_chars h]
      simp
    · rw [segments_chunked d b content ext max_chars h]
      push_neg at h
      have hm : 0 < max_chars.toNat := by omega
      have := split_go_flatten content max_chars.toNat hm (content.length + 1) 0 (by omega)
      simpa [split_parts] using this
  exact ⟨hflat, flatten_eq_slices _ content hflat⟩

/-- Witness for C1 at a concrete document and budget. -/
theorem c1_roundtrip_witness :
    (segments "export" "doc" "0123456789".toList "md" 4).flatten = "0123456789".toList :=
  (c1_roundtrip "export" "doc" "0123456789".toList "md" 4 (by decide)).1

/-- C3: for every document and every `max_chars > 0`, every file written by
the chunked writer has content of length at most `max_chars`. -/
theorem c3_size_budget (d b : String) (content : List Char) (ext : String)
    (max_chars : Int) (hpos : 0 < max_chars) :
    ∀ f ∈ (write_chunked d b content ext max_chars).1, (f.2.length : Int) ≤ max_chars := by
  intro f hf
  by_cases h : max_chars ≤ 0 ∨ (content.length : Int) ≤ max_chars
  · have hlen : (content.length : Int) ≤ max_chars := by omega
    simp only [write_chunked, if_pos h] at hf
    simp only [List.mem_singleton] at hf
    subst hf
    exact hlen
  · simp only [write_chunked, if_neg h] at hf
    have hsnd : f.2 ∈ split_parts content max_chars.toNat := by
      have : f.2 ∈ ((split_parts content max_chars.toNat).enum.map fun p =>
          (d ++ "/" ++ b ++ "_part" ++ toString (p.1 + 1) ++ "." ++ ext, p.2)).map Prod.snd :=
        List.mem_map_of_mem Prod.snd hf
      rwa [map_snd_enum_map] at this
    have := split_go_length_le content max_chars.toNat (content.length + 1) 0 f.2 hsnd
    push_neg at h
    omega

/-- Witness for C3 at a concrete document, budget and written file. -/
theorem c3_size_budget_witness :
    ((("export/doc_part1.md" : String), "0123".toList).2.length : Int) ≤ 4 :=
  c3_size_budget "export" "doc" "0123456789".toList "md" 4 (by decide)
    ("export/doc_part1.md", "0123".toList) (by decide)

/-- C4 counterexample: a document that is one entry block of 10 characters
with no internal boundary marker, at `max_chars = 4`, is subdivided into
three segments, none of them oversized — it is not emitted as a single
oversized segment as the claim states. -/
theorem c4_counterexample :
    (write_chunked "export" "doc" "0123456789".toList "md" 4).1.length = 3
    ∧ (write_chunked "export" "doc" "0123456789".toList "md" 4).1.length ≠ 1
    ∧ ∀ f ∈ (write_chunked "export" "doc" "0123456789".toList "md" 4).1, f.2.length ≤ 4 := by
  decide

/-- C4 amended: a document longer than `max_chars > 0` (in particular a
single entry block with no boundary marker) is subdivided: the writer emits
at least two segments and every segment, oversized blocks included, has
length at most `max_chars`. -/
theorem c4_oversized_subdivided (d b : String) (content : List Char) (ext : String)
    (max_chars : Int) (hpos : 0 < max_chars) (hlong : max_chars < (content.length : Int)) :
    2 ≤ (write_chunked d b content ext max_chars).1.length
    ∧ ∀ f ∈ (write_chunked d b content ext max_chars).1, (f.2.length : Int) ≤ max_chars := by
  have h : ¬(max_chars ≤ 0 ∨ (content.length : Int) ≤ max_chars) := by
    push_neg
    omega
  constructor
  · simp only [write_chunked, if_neg h, List.length_map, List.enum_length]
    have hm : 0 < max_chars.toNat := by omega
    have hlen0 : 0 < content.length := by omega
    rw [split_parts, split_go_cons content max_chars.toNat content.length 0 hlen0]
    have hcut := cut_pos_le content max_chars.toNat 0
    have hcutlt : cut_pos content max_chars.toNat 0 < content.length := by
      have : min (0 + max_chars.toNat) content.length = max_chars.toNat := by omega
      omega
    have := split_go_one_le content max_chars.toNat content.length
      (cut_pos content max_chars.toNat 0) hcutlt (by omega)
    simp only [List.length_cons]
    omega
  · exact c3_size_budget d b content ext max_chars hpos

/-- Witness for the amended C4 at a concrete oversized block. -/
theorem c4_oversized_subdivided_witness :
    2 ≤ (write_chunked "export" "doc" "0123456789".toList "md" 4).1.length
    ∧ ∀ f ∈ (write_chunked "export" "doc" "0123456789".toList "md" 4).1,
        ((f.2.length : Int) ≤ 4) :=
  c4_oversized_subdivided "export" "doc" "0123456789".toList "md" 4 (by decide) (by decide)

/-- C5: whenever `max_chars ≤ 0` or the document fits in `max_chars`, the
chunked writer writes exactly one file, named `base_name.extension`, whose
content is the whole document, and returns that file's path. -/
theorem c5_single_file (d b : String) (content : List Char) (ext : String) (max_chars : Int)
    (h : max_chars ≤ 0 ∨ (content.length : Int) ≤ max_chars) :
    write_chunked d b content ext max_chars =
      ([(d ++ "/" ++ b ++ "." ++ ext, content)], d ++ "/" ++ b ++ "." ++ ext) := by
  simp [write_chunked, if_pos h]

/-- Witness for C5: the empty document with a positive budget yields exactly
one (empty) segment. -/
theorem c5_single_file_witness :
    write_chunked "export" "doc" "".toList "md" 4 =
      ([("export" ++ "/" ++ "doc" ++ "." ++ "md", "".toList)],
        "export" ++ "/" ++ "doc" ++ "." ++ "md") :=
  c5_single_file "export" "doc" "".toList "md" 4 (by decide)

/-- C2: for a document longer than `max_chars > 0`, the files written by the
chunked writer are exactly the segments of the spec's greedy boundary-seeking
split (windows of `max_chars` characters; rightmost occurrence of each of the
three boundary markers; maximum of the three; cut at the boundary when it is
strictly after the window start and the window does not reach end-of-document,
else at the window end), named `base_name_part{N}.extension` for N = 1, 2, …
in order, and the returned reference is the path of part 1. -/
theorem c2_greedy_split (d b : String) (content : List Char) (ext : String)
    (max_chars : Int) (hpos : 0 < max_chars) (hlong : max_chars < (content.length : Int)) :
    (write_chunked d b content ext max_chars).1 =
      (spec_parts content max_chars.toNat).enum.map (fun p =>
        (d ++ "/" ++ b ++ "_part" ++ toString (p.1 + 1) ++ "." ++ ext, p.2))
    ∧ (write_chunked d b content ext max_chars).2 =
        d ++ "/" ++ b ++ "_part" ++ "1" ++ "." ++ ext := by
  have h : ¬(max_chars ≤ 0 ∨ (content.length : Int) ≤ max_chars) := by
    push_neg
    omega
  have hfiles : (write_chunked d b content ext max_chars).1 =
      (spec_parts content max_chars.toNat).enum.map (fun p =>
        (d ++ "/" ++ b ++ "_part" ++ toString (p.1 + 1) ++ "." ++ ext, p.2)) := by
    simp only [write_chunked, if_neg h, split_parts_eq_spec]
  refine ⟨hfiles, ?_⟩
  have hlen0 : 0 < content.length := by omega
  have hcons : ∃ p rest, spec_parts content max_chars.toNat = p :: rest := by
    rw [← split_parts_eq_spec, split_parts,
      split_go_cons content max_chars.toNat content.length 0 hlen0]
    exact ⟨_, _, rfl⟩
  rcases hcons with ⟨p, rest, hp⟩
  simp only [write_chunked, if_neg h, split_parts_eq_spec, hp, List.enum_cons, List.map_cons]
  rfl

/-- Witness for C2 at a concrete document and budget. -/
theorem c2_greedy_split_witness :
    (write_chunked "export" "doc" "0123456789".toList "md" 4).1 =
      (spec_parts "0123456789".toList 4).enum.map (fun p =>
        ("export" ++ "/" ++ "doc" ++ "_part" ++ toString (p.1 + 1) ++ "." ++ "md", p.2))
    ∧ (write_chunked "export" "doc" "0123456789".toList "md" 4).2 =
        "export" ++ "/" ++ "doc" ++ "_part" ++ "1" ++ "." ++ "md" :=
  c2_greedy_split "export" "doc" "0123456789".toList "md" 4 (by decide) (by decide)

/-! ### Grouping (`_group_by_type`, `_group_by_date`, `_group_by_tags`)

A Python dict used as an insertion-ordered mapping from group key to list of
entries is modelled as an association list; `grouped[key].append(entry)` (with
creation of a fresh list when the key is new) is `dictAppend`. -/

/-- Insert `e` under key `k`: append to the existing group of `k`, or add a
new `(k, [e])` bucket at the end (Python dict insertion order). -/
def dictAppend (acc : List (String × List Entry)) (k : String) (e : Entry) :
    List (String × List Entry) :=
  match acc with
  | [] => [(k, [e])]
  | (k2, es) :: rest =>
    if k2 = k then (k2, es ++ [e]) :: rest else (k2, es) :: dictAppend rest k e

/-- The dict built by inserting a list of `(key, entry)` pairs in order. -/
def dictOfPairs (ps : List (String × Entry)) : List (String × List Entry) :=
  ps.foldl (fun acc p => dictAppend acc p.1 p.2) []

/-- The distinct keys of a pair list, in first-occurrence order (the key
order of the Python dict before sorting). -/
def firstKeys : List (String × Entry) → List String
  | [] => []
  | (k, _) :: ps => k :: (firstKeys ps).filter (fun k2 => decide (k2 ≠ k))

/-- The entries carrying key `k`, in input order. -/
def valuesFor (ps : List (String × Entry)) (k : String) : List Entry :=
  (ps.filter (fun p => decide (p.1 = k))).map Prod.snd

/-- Python `dict(sorted(d.items()))`: sort the buckets by key ascending
(dict keys are distinct, so the comparison never reaches the values). -/
def sortPairsAsc (l : List (String × List Entry)) : List (String × List Entry) :=
  l.mergeSort (fun a b => decide (a.1 ≤ b.1))

/-- Python `dict(sorted(d.items(), reverse=True))`: sort by key descending. -/
def sortPairsDesc (l : List (String × List Entry)) : List (String × List Entry) :=
  l.mergeSort (fun a b => decide (b.1 ≤ a.1))

/-- `LLMExporter._group_by_type`. -/
def group_by_type (entries : List Entry) : List (String × List Entry) :=
  sortPairsAsc (entries.foldl (fun acc e => dictAppend acc e.entry_type e) [])

/-- The date key of `_group_by_date`: `datetime.fromisoformat` followed by
`strftime("%Y-%m-%d")` is the external `parse`; on `ValueError` the key is
`timestamp[:10]` for a truthy timestamp and `"unknown"` otherwise. -/
def date_key (parse : String → Option String) (e : Entry) : String :=
  match parse e.timestamp with
  | some d => d
  | none => if e.timestamp = "" then "unknown" else String.mk (e.timestamp.toList.take 10)

/-- `LLMExporter._group_by_date`. -/
def group_by_date (parse : String → Option String) (entries : List Entry) :
    List (String × List Entry) :=
  sortPairsDesc (entries.foldl (fun acc e => dictAppend acc (date_key parse e) e) [])

/-- `LLMExporter._group_by_tags` (one insertion per tag of each entry). -/
def group_by_tags (entries : List Entry) : List (String × List Entry) :=
  sortPairsAsc (entries.foldl
    (fun acc e => e.tags.foldl (fun acc2 t => dictAppend acc2 t e) acc) [])

/-- The `(key, entry)` insertion sequence of `_group_by_type`. -/
def type_pairs (entries : List Entry) : List (String × Entry) :=
  entries.map (fun e => (e.entry_type, e))

/-- The `(key, entry)` insertion sequence of `_group_by_date`. -/
def date_pairs (parse : String → Option String) (entries : List Entry) :
    List (String × Entry) :=
  entries.map (fun e => (date_key parse e, e))

/-- The `(tag, entry)` insertion sequence of `_group_by_tags`. -/
def tag_pairs (entries : List Entry) : List (String × Entry) :=
  entries.flatMap (fun e => e.tags.map (fun t => (t, e)))

theorem group_by_type_eq (entries : List Entry) :
    group_by_type entries = sortPairsAsc (dictOfPairs (type_pairs entries)) := by
  unfold group_by_type dictOfPairs type_pairs
  rw [List.foldl_map]

theorem group_by_date_eq (parse : String → Option String) (entries : List Entry) :
    group_by_date parse entries = sortPairsDesc (dictOfPairs (date_pairs parse entries)) := by
  unfold group_by_date dictOfPairs date_pairs
  rw [List.foldl_map]

theorem foldl_tags_eq (entries : List Entry) :
    ∀ acc, entries.foldl (fun acc e => e.tags.foldl (fun acc2 t => dictAppend acc2 t e) acc) acc
      = (tag_pairs entries).foldl (fun acc p => dictAppend acc p.1 p.2) acc := by
  induction entries with
  | nil => intro acc; rfl
  | cons e es ih =>
    intro acc
    show es.foldl _ (e.tags.foldl (fun acc2 t => dictAppend acc2 t e) acc) = _
    rw [ih]
    unfold tag_pairs
    rw [List.flatMap_cons, List.foldl_append, List.foldl_map]

theorem group_by_tags_eq (entries : List Entry) :
    group_by_tags entries = sortPairsAsc (dictOfPairs (tag_pairs entries)) := by
  unfold group_by_tags dictOfPairs
  rw [foldl_tags_eq]

/-! ### Characterization of the dict fold -/

theorem firstKeys_nodup : ∀ ps : List (String × Entry), (firstKeys ps).Nodup := by
  intro ps
  induction ps with
  | nil => exact List.nodup_nil
  | cons p ps ih =>
    obtain ⟨k, v⟩ := p
    refine List.nodup_cons.mpr ⟨?_, ih.filter _⟩
    intro hmem
    have := List.of_mem_filter hmem
    simp at this

theorem mem_firstKeys (k : String) : ∀ ps : List (String × Entry),
    k ∈ firstKeys ps ↔ k ∈ ps.map Prod.fst := by
  intro ps
  induction ps with
  | nil => simp [firstKeys]
  | cons p ps ih =>
    obtain ⟨k2, v⟩ := p
    by_cases hk : k = k2
    · subst hk
      simp [firstKeys]
    · simp [firstKeys, List.mem_filter, hk, ih]

theorem valuesFor_nil_of_not_mem (k : String) (ps : List (String × Entry))
    (h : k ∉ ps.map Prod.fst) : valuesFor ps k = [] := by
  unfold valuesFor
  have : ps.filter (fun p => decide (p.1 = k)) = [] := by
    rw [List.filter_eq_nil_iff]
    intro p hp
    simp only [decide_eq_true_eq]
    intro hpk
    exact h (hpk ▸ List.mem_map_of_mem Prod.fst hp)
  rw [this, List.map_nil]

theorem valuesFor_append (ps : List (String × Entry)) (q : String × Entry) (k : String) :
    valuesFor (ps ++ [q]) k = valuesFor ps k ++ (if q.1 = k then [q.2] else []) := by
  unfold valuesFor
  rw [List.filter_append, List.map_append]
  congr 1
  by_cases hq : q.1 = k <;> simp [hq]

theorem firstKeys_append (ps : List (String × Entry)) (q : String × Entry) :
    firstKeys (ps ++ [q]) =
      if q.1 ∈ firstKeys ps then firstKeys ps else firstKeys ps ++ [q.1] := by
  induction ps with
  | nil => simp [firstKeys]
  | cons p ps ih =>
    obtain ⟨k2, v⟩ := p
    have hstep : firstKeys ((k2, v) :: (ps ++ [q])) =
        k2 :: (firstKeys (ps ++ [q])).filter (fun k3 => decide (k3 ≠ k2)) := rfl
    have hR : firstKeys ((k2, v) :: ps) =
        k2 :: (firstKeys ps).filter (fun k3 => decide (k3 ≠ k2)) := rfl
    rw [List.cons_append, hstep, ih, hR]
    by_cases hmem : q.1 ∈ firstKeys ps
    · rw [if_pos hmem]
      have hcond : q.1 ∈ k2 :: (firstKeys ps).filter (fun k3 => decide (k3 ≠ k2)) := by
        by_cases hk : q.1 = k2
        · exact hk ▸ List.mem_cons_self _ _
        · exact List.mem_cons_of_mem _ (List.mem_filter.mpr ⟨hmem, by simp [hk]⟩)
      rw [if_pos hcond]
    · rw [if_neg hmem]
      by_cases hk : q.1 = k2
      · subst hk
        have hcond : q.1 ∈ q.1 :: (firstKeys ps).filter (fun k3 => decide (k3 ≠ q.1)) :=
          List.mem_cons_self _ _
        rw [if_pos hcond, List.filter_append]
        simp
      · have hcond : q.1 ∉ k2 :: (firstKeys ps).filter (fun k3 => decide (k3 ≠ k2)) := by
          intro h
          rcases List.mem_cons.mp h with h | h
          · exact hk h
          · exact hmem (List.mem_filter.mp h).1
        rw [if_neg hcond, List.filter_append]
        simp [hk]

theorem dictAppend_map_mem (ks : List String) (G : String → List Entry) (k : String)
    (e : Entry) (hnd : ks.Nodup) (hmem : k ∈ ks) :
    dictAppend (ks.map fun k2 => (k2, G k2)) k e =
      ks.map (fun k2 => (k2, if k2 = k then G k2 ++ [e] else G k2)) := by
  induction ks with
  | nil => simp at hmem
  | cons k2 ks ih =>
    simp only [List.map_cons, dictAppend]
    by_cases hk : k2 = k
    · subst hk
      rw [if_pos rfl, if_pos rfl]
      congr 1
      apply List.map_congr_left
      intro a ha
      have : a ≠ k2 := by
        intro h
        subst h
        exact (List.nodup_cons.mp hnd).1 ha
      rw [if_neg this]
    · rw [if_neg hk, if_neg hk]
      congr 1
      exact ih (List.nodup_cons.mp hnd).2 (by
        rcases List.mem_cons.mp hmem with h | h
        · exact absurd h.symm hk
        · exact h)

theorem dictAppend_map_not_mem (ks : List String) (G : String → List Entry) (k : String)
    (e : Entry) (hmem : k ∉ ks) :
    dictAppend (ks.map fun k2 => (k2, G k2)) k e =
      ks.map (fun k2 => (k2, G k2)) ++ [(k, [e])] := by
  induction ks with
  | nil => rfl
  | cons k2 ks ih =>
    simp only [List.map_cons, dictAppend]
    have hk : k2 ≠ k := fun h => hmem (h ▸ List.mem_cons_self k2 ks)
    rw [if_neg hk, List.cons_append]
    congr 1
    exact ih (fun h => hmem (List.mem_cons_of_mem _ h))

theorem dictOfPairs_char : ∀ ps : List (String × Entry),
    dictOfPairs ps = (firstKeys ps).map (fun k => (k, valuesFor ps k)) := by
  intro ps
  induction ps using List.reverseRecOn with
  | nil => rfl
  | append_singleton ps q ih =>
    have hfold : dictOfPairs (ps ++ [q]) = dictAppend (dictOfPairs ps) q.1 q.2 := by
      unfold dictOfPairs
      rw [List.foldl_append]
      rfl
    rw [hfold, ih, firstKeys_append]
    by_cases hmem : q.1 ∈ firstKeys ps
    · rw [if_pos hmem,
        dictAppend_map_mem _ _ _ _ (firstKeys_nodup ps) hmem]
      apply List.map_congr_left
      intro k hk
      rw [valuesFor_append]
      by_cases hq : k = q.1
      · subst hq
        rw [if_pos rfl, if_pos rfl]
      · rw [if_neg hq, if_neg (fun h => hq h.symm), List.append_nil]
    · rw [if_neg hmem, dictAppend_map_not_mem _ _ _ _ hmem, List.map_append]
      congr 1
      · apply List.map_congr_left
        intro k hk
        rw [valuesFor_append]
        have hq : ¬(q.1 = k) := fun h => hmem (h ▸ hk)
        rw [if_neg hq, List.append_nil]
      · simp only [List.map_cons, List.map_nil]
        congr 2
        rw [valuesFor_append, if_pos rfl,
          valuesFor_nil_of_not_mem _ _ (fun h => hmem ((mem_firstKeys _ _).mpr h)),
          List.nil_append]

/-! ### Sorting facts -/

theorem sortPairsAsc_perm (l : List (String × List Entry)) : (sortPairsAsc l).Perm l :=
  List.mergeSort_perm l _

theorem sortPairsDesc_perm (l : List (String × List Entry)) : (sortPairsDesc l).Perm l :=
  List.mergeSort_perm l _

theorem sortPairsAsc_sorted (l : List (String × List Entry)) :
    List.Pairwise (fun a b => a.1 ≤ b.1) (sortPairsAsc l) := by
  have h := @List.sorted_mergeSort (String × List Entry)
    (fun a b => decide (a.1 ≤ b.1))
    (fun a b c hab hbc => by
      simp only [decide_eq_true_eq] at *
      exact le_trans hab hbc)
    (fun a b => by
      rcases le_total a.1 b.1 with h | h <;> simp [h])
    l
  exact h.imp (fun hab => by simpa using hab)

theorem sortPairsDesc_sorted (l : List (String × List Entry)) :
    List.Pairwise (fun a b => b.1 ≤ a.1) (sortPairsDesc l) := by
  have h := @List.sorted_mergeSort (String × List Entry)
    (fun a b => decide (b.1 ≤ a.1))
    (fun a b c hab hbc => by
      simp only [decide_eq_true_eq] at *
      exact le_trans hbc hab)
    (fun a b => by
      rcases le_total b.1 a.1 with h | h <;> simp [h])
    l
  exact h.imp (fun hab => by simpa using hab)

theorem keys_nodup_of_perm {l1 l2 : List (String × List Entry)} (h : l1.Perm l2)
    (hnd : (l2.map Prod.fst).Nodup) : (l1.map Prod.fst).Nodup :=
  ((h.map Prod.fst).nodup_iff).mpr hnd

theorem pairwise_keys_ne {l : List (String × List Entry)}
    (hnd : (l.map Prod.fst).Nodup) : List.Pairwise (fun a b => a.1 ≠ b.1) l := by
  have : List.Pairwise (· ≠ ·) (l.map Prod.fst) := hnd
  exact List.pairwise_map.mp this

theorem sortPairsAsc_sorted_lt (l : List (String × List Entry))
    (hnd : (l.map Prod.fst).Nodup) :
    List.Pairwise (fun a b => a.1 < b.1) (sortPairsAsc l) := by
  have h1 := sortPairsAsc_sorted l
  have h2 := pairwise_keys_ne (keys_nodup_of_perm (sortPairsAsc_perm l) hnd)
  exact (h1.and h2).imp (fun hab => lt_of_le_of_ne hab.1 hab.2)

theorem sortPairsDesc_sorted_lt (l : List (String × List Entry))
    (hnd : (l.map Prod.fst).Nodup) :
    List.Pairwise (fun a b => b.1 < a.1) (sortPairsDesc l) := by
  have h1 := sortPairsDesc_sorted l
  have h2 := pairwise_keys_ne (keys_nodup_of_perm (sortPairsDesc_perm l) hnd)
  exact (h1.and h2).imp (fun hab => lt_of_le_of_ne hab.1 (Ne.symm hab.2))

instance keyLT_antisymm : IsAntisymm (String × List Entry) (fun a b => a.1 < b.1) :=
  ⟨fun a _ h h2 => absurd (lt_trans h h2) (lt_irrefl a.1)⟩

instance keyGT_antisymm : IsAntisymm (String × List Entry) (fun a b => b.1 < a.1) :=
  ⟨fun _ b h h2 => absurd (lt_trans h h2) (lt_irrefl b.1)⟩

theorem sorted_lt_unique {l1 l2 : List (String × List Entry)} (hperm : l1.Perm l2)
    (h1 : List.Pairwise (fun a b => a.1 < b.1) l1)
    (h2 : List.Pairwise (fun a b => a.1 < b.1) l2) : l1 = l2 :=
  List.eq_of_perm_of_sorted hperm h1 h2

theorem sorted_gt_unique {l1 l2 : List (String × List Entry)} (hperm : l1.Perm l2)
    (h1 : List.Pairwise (fun a b => b.1 < a.1) l1)
    (h2 : List.Pairwise (fun a b => b.1 < a.1) l2) : l1 = l2 :=
  List.eq_of_perm_of_sorted hperm h1 h2

theorem sortPairsAsc_map (F : (String × List Entry) → (String × List Entry))
    (hF : ∀ p, (F p).1 = p.1) (l : List (String × List Entry))
    (hnd : (l.map Prod.fst).Nodup) :
    sortPairsAsc (l.map F) = (sortPairsAsc l).map F := by
  have hkeys : (l.map F).map Prod.fst = l.map Prod.fst := by
    rw [List.map_map]
    exact List.map_congr_left (fun p _ => hF p)
  have hndF : ((l.map F).map Prod.fst).Nodup := hkeys ▸ hnd
  apply sorted_lt_unique
  · exact (sortPairsAsc_perm (l.map F)).trans ((sortPairsAsc_perm l).symm.map F)
  · exact sortPairsAsc_sorted_lt (l.map F) hndF
  · have := sortPairsAsc_sorted_lt l hnd
    refine List.pairwise_map.mpr (this.imp ?_)
    intro a b hab
    rw [hF a, hF b]
    exact hab

theorem sortPairsDesc_map (F : (String × List Entry) → (String × List Entry))
    (hF : ∀ p, (F p).1 = p.1) (l : List (String × List Entry))
    (hnd : (l.map Prod.fst).Nodup) :
    sortPairsDesc (l.map F) = (sortPairsDesc l).map F := by
  have hkeys : (l.map F).map Prod.fst = l.map Prod.fst := by
    rw [List.map_map]
    exact List.map_congr_left (fun p _ => hF p)
  have hndF : ((l.map F).map Prod.fst).Nodup := hkeys ▸ hnd
  apply sorted_gt_unique
  · exact (sortPairsDesc_perm (l.map F)).trans ((sortPairsDesc_perm l).symm.map F)
  · exact sortPairsDesc_sorted_lt (l.map F) hndF
  · have := sortPairsDesc_sorted_lt l hnd
    refine List.pairwise_map.mpr (this.imp ?_)
    intro a b hab
    rw [hF a, hF b]
    exact hab

theorem dictOfPairs_keys (ps : List (String × Entry)) :
    (dictOfPairs ps).map Prod.fst = firstKeys ps := by
  rw [dictOfPairs_char, List.map_map]
  exact List.map_id (firstKeys ps)

theorem dictOfPairs_keys_nodup (ps : List (String × Entry)) :
    ((dictOfPairs ps).map Prod.fst).Nodup := by
  rw [dictOfPairs_keys]
  exact firstKeys_nodup ps

/-! ### Multiset preservation: the dict fold distributes the inserted
entries, sorting permutes the buckets. -/

theorem flatMap_snd_dictAppend (acc : List (String × List Entry)) (k : String) (e : Entry) :
    ((dictAppend acc k e).flatMap Prod.snd).Perm (acc.flatMap Prod.snd ++ [e]) := by
  induction acc with
  | nil => simp [dictAppend]
  | cons p rest ih =>
    obtain ⟨k2, es⟩ := p
    unfold dictAppend
    by_cases hk : k2 = k
    · rw [if_pos hk]
      simp only [List.flatMap_cons]
      rw [List.append_assoc, List.append_assoc]
      exact (List.Perm.append_left es (List.perm_append_comm)).trans (List.Perm.refl _)
    · rw [if_neg hk]
      simp only [List.flatMap_cons]
      rw [List.append_assoc]
      exact List.Perm.append_left es ih

theorem flatMap_snd_foldl (ps : List (String × Entry)) :
    ∀ acc : List (String × List Entry),
      ((ps.foldl (fun acc p => dictAppend acc p.1 p.2) acc).flatMap Prod.snd).Perm
        (acc.flatMap Prod.snd ++ ps.map Prod.snd) := by
  induction ps with
  | nil => intro acc; simp
  | cons p ps ih =>
    intro acc
    show ((ps.foldl _ (dictAppend acc p.1 p.2)).flatMap Prod.snd).Perm _
    refine (ih (dictAppend acc p.1 p.2)).trans ?_
    have h1 := flatMap_snd_dictAppend acc p.1 p.2
    refine (h1.append_right (ps.map Prod.snd)).trans ?_
    rw [List.append_assoc, List.map_cons]
    exact List.Perm.refl _

theorem flatMap_snd_dictOfPairs (ps : List (String × Entry)) :
    ((dictOfPairs ps).flatMap Prod.snd).Perm (ps.map Prod.snd) := by
  have := flatMap_snd_foldl ps []
  simpa using this

theorem flatMap_snd_perm {l1 l2 : List (String × List Entry)} (h : l1.Perm l2) :
    (l1.flatMap Prod.snd).Perm (l2.flatMap Prod.snd) := by
  have : (l1.map Prod.snd).Perm (l2.map Prod.snd) := h.map Prod.snd
  simpa [List.flatMap_def] using this.flatten

/-! ### Group membership and group contents -/

theorem pair_mem_dictOfPairs (ps : List (String × Entry)) (k : String) (g : List Entry) :
    (k, g) ∈ dictOfPairs ps ↔ k ∈ firstKeys ps ∧ g = valuesFor ps k := by
  rw [dictOfPairs_char]
  constructor
  · intro h
    rcases List.mem_map.mp h with ⟨k2, hk2, heq⟩
    cases heq
    exact ⟨hk2, rfl⟩
  · rintro ⟨h1, rfl⟩
    exact List.mem_map_of_mem _ h1

theorem mem_valuesFor_of_pair (ps : List (String × Entry)) (k : String) (e : Entry)
    (h : (k, e) ∈ ps) : k ∈ firstKeys ps ∧ e ∈ valuesFor ps k := by
  constructor
  · exact (mem_firstKeys k ps).mpr (List.mem_map_of_mem Prod.fst h)
  · exact List.mem_map_of_mem Prod.snd (List.mem_filter.mpr ⟨h, by simp⟩)

theorem pair_mem_group_by_tags (entries : List Entry) (t : String) (g : List Entry) :
    (t, g) ∈ group_by_tags entries ↔
      t ∈ firstKeys (tag_pairs entries) ∧ g = valuesFor (tag_pairs entries) t := by
  rw [group_by_tags_eq, (sortPairsAsc_perm _).mem_iff, pair_mem_dictOfPairs]

theorem pair_mem_group_by_type (entries : List Entry) (k : String) (g : List Entry) :
    (k, g) ∈ group_by_type entries ↔
      k ∈ firstKeys (type_pairs entries) ∧ g = valuesFor (type_pairs entries) k := by
  rw [group_by_type_eq, (sortPairsAsc_perm _).mem_iff, pair_mem_dictOfPairs]

theorem pair_mem_group_by_date (parse : String → Option String) (entries : List Entry)
    (k : String) (g : List Entry) :
    (k, g) ∈ group_by_date parse entries ↔
      k ∈ firstKeys (date_pairs parse entries) ∧ g = valuesFor (date_pairs parse entries) k := by
  rw [group_by_date_eq, (sortPairsDesc_perm _).mem_iff, pair_mem_dictOfPairs]

theorem valuesFor_map_pairs (f : Entry → String) (entries : List Entry) (k : String) :
    valuesFor (entries.map fun e => (f e, e)) k = entries.filter (fun e => decide (f e = k)) := by
  unfold valuesFor
  rw [List.filter_map, List.map_map]
  exact List.map_id _

theorem filter_eq_of_nodup (l : List String) (hnd : l.Nodup) (t : String) :
    l.filter (fun x => decide (x = t)) = if t ∈ l then [t] else [] := by
  induction l with
  | nil => simp
  | cons a l ih =>
    have hnd2 := List.nodup_cons.mp hnd
    by_cases ha : a = t
    · subst ha
      rw [List.filter_cons_of_pos (by simp)]
      have hnil : l.filter (fun x => decide (x = a)) = [] := by
        rw [List.filter_eq_nil_iff]
        intro x hx
        simp only [decide_eq_true_eq]
        intro he
        exact hnd2.1 (he ▸ hx)
      rw [hnil, if_pos (List.mem_cons_self a l)]
    · rw [List.filter_cons_of_neg (by simp [ha]), ih hnd2.2]
      have hcond : t ∈ a :: l ↔ t ∈ l := by
        constructor
        · intro h
          rcases List.mem_cons.mp h with h | h
          · exact absurd h.symm ha
          · exact h
        · exact List.mem_cons_of_mem a
      rw [if_congr hcond rfl rfl]

theorem valuesFor_tag_pairs (entries : List Entry) (t : String)
    (hnd : ∀ e ∈ entries, e.tags.Nodup) :
    valuesFor (tag_pairs entries) t = entries.filter (fun e => decide (t ∈ e.tags)) := by
  induction entries with
  | nil => rfl
  | cons e es ih =>
    have hnd2 : ∀ x ∈ es, x.tags.Nodup := fun x hx => hnd x (List.mem_cons_of_mem e hx)
    have hexp : tag_pairs (e :: es) = e.tags.map (fun t2 => (t2, e)) ++ tag_pairs es := by
      unfold tag_pairs
      rw [List.flatMap_cons]
    have hsplit : valuesFor (e.tags.map (fun t2 => (t2, e)) ++ tag_pairs es) t
        = ((e.tags.map (fun t2 => (t2, e))).filter (fun p => decide (p.1 = t))).map Prod.snd
          ++ valuesFor (tag_pairs es) t := by
      unfold valuesFor
      rw [List.filter_append, List.map_append]
    have hinner : ((e.tags.map (fun t2 => (t2, e))).filter
        (fun p => decide (p.1 = t))).map Prod.snd = if t ∈ e.tags then [e] else [] := by
      rw [List.filter_map, List.map_map]
      have hpred : e.tags.filter ((fun p : String × Entry => decide (p.1 = t))
          ∘ (fun t2 => (t2, e))) = e.tags.filter (fun x => decide (x = t)) := rfl
      rw [hpred, filter_eq_of_nodup e.tags (hnd e (List.mem_cons_self e es)) t]
      by_cases ht : t ∈ e.tags <;> simp [ht]
    rw [hexp, hsplit, hinner, ih hnd2]
    by_cases ht : t ∈ e.tags
    · rw [if_pos ht, List.filter_cons_of_pos (by simp [ht])]
      rfl
    · rw [if_neg ht, List.filter_cons_of_neg (by simp [ht]), List.nil_append]

theorem map_snd_map_pairs (f : Entry → String) (entries : List Entry) :
    (entries.map fun e => (f e, e)).map Prod.snd = entries := by
  rw [List.map_map]
  exact List.map_id _

theorem group_by_type_flat_perm (entries : List Entry) :
    ((group_by_type entries).flatMap Prod.snd).Perm entries := by
  rw [group_by_type_eq]
  refine (flatMap_snd_perm (sortPairsAsc_perm _)).trans ?_
  refine (flatMap_snd_dictOfPairs _).trans ?_
  rw [show (type_pairs entries).map Prod.snd = entries from map_snd_map_pairs _ entries]

theorem group_by_date_flat_perm (parse : String → Option String) (entries : List Entry) :
    ((group_by_date parse entries).flatMap Prod.snd).Perm entries := by
  rw [group_by_date_eq]
  refine (flatMap_snd_perm (sortPairsDesc_perm _)).trans ?_
  refine (flatMap_snd_dictOfPairs _).trans ?_
  rw [show (date_pairs parse entries).map Prod.snd = entries from map_snd_map_pairs _ entries]

/-! ### Claims C6 and C7 about the grouping helpers -/

/-- C7: under tag grouping an entry is placed into the group of each of its
tags (fan-out); tag groups are sorted by key ascending (strictly, since the
keys are dict keys and hence distinct) and each tag group lists, in input
order, exactly the entries carrying that tag; under type and date grouping
every entry occurrence is distributed into exactly one group (the groups
flatten to a permutation of the input). -/
theorem c7_grouping_fanout (entries : List Entry) :
    (∀ e ∈ entries, ∀ t ∈ e.tags,
      ∃ g, (t, g) ∈ group_by_tags entries ∧ e ∈ g)
    ∧ List.Pairwise (fun a b => a.1 < b.1) (group_by_tags entries)
    ∧ ((∀ e ∈ entries, e.tags.Nodup) → ∀ t g, (t, g) ∈ group_by_tags entries →
        g = entries.filter (fun e => decide (t ∈ e.tags)))
    ∧ ((group_by_type entries).flatMap Prod.snd).Perm entries
    ∧ ∀ parse, ((group_by_date parse entries).flatMap Prod.snd).Perm entries := by
  refine ⟨?_, ?_, ?_, group_by_type_flat_perm entries, fun parse => group_by_date_flat_perm parse entries⟩
  · intro e he t ht
    have hpair : (t, e) ∈ tag_pairs entries := by
      unfold tag_pairs
      exact List.mem_flatMap.mpr ⟨e, he, List.mem_map_of_mem _ ht⟩
    obtain ⟨hk, hv⟩ := mem_valuesFor_of_pair _ _ _ hpair
    exact ⟨valuesFor (tag_pairs entries) t,
      (pair_mem_group_by_tags entries t _).mpr ⟨hk, rfl⟩, hv⟩
  · rw [group_by_tags_eq]
    exact sortPairsAsc_sorted_lt _ (dictOfPairs_keys_nodup _)
  · intro hnd t g hg
    obtain ⟨_, hv⟩ := (pair_mem_group_by_tags entries t g).mp hg
    rw [hv, valuesFor_tag_pairs entries t hnd]

/-- Witness for C7: the spec's example scenario, two entries tagged
`["a","common"]` and `["b","common"]`. -/
theorem c7_grouping_fanout_witness :
    ∃ g, ("a", g) ∈ group_by_tags
      [{ entry_type := "note", title := "Primera", content := "Contenido 1",
         tags := ["a", "common"], files_affected := [], llm_context := none,
         git_info := none, related_entries := [], timestamp := "2024-01-01T00:00:00",
         entry_id := "1" },
       { entry_type := "note", title := "Segunda", content := "Contenido 2",
         tags := ["b", "common"], files_affected := [], llm_context := none,
         git_info := none, related_entries := [], timestamp := "2024-01-02T00:00:00",
         entry_id := "2" }]
      ∧ ({ entry_type := "note", title := "Primera", content := "Contenido 1",
           tags := ["a", "common"], files_affected := [], llm_context := none,
           git_info := none, related_entries := [], timestamp := "2024-01-01T00:00:00",
           entry_id := "1" } : Entry) ∈ g :=
  (c7_grouping_fanout _).1 _ (List.mem_cons_self _ _) "a" (List.mem_cons_self _ _)

/-- C6 counterexample: an entry with the unparsable non-empty timestamp
`"garbage-timestamp"` is grouped under key `"garbage-ti"` (the first ten
characters of the timestamp), not under `"unknown"` as the claim states. -/
theorem c6_counterexample :
    group_by_date (fun _ => none)
      [{ entry_type := "note", title := "t", content := "c", tags := [],
         files_affected := [], llm_context := none, git_info := none,
         related_entries := [], timestamp := "garbage-timestamp", entry_id := "x" }]
      = [("garbage-ti",
          [{ entry_type := "note", title := "t", content := "c", tags := [],
             files_affected := [], llm_context := none, git_info := none,
             related_entries := [], timestamp := "garbage-timestamp", entry_id := "x" }])]
    ∧ "garbage-ti" ≠ "unknown" := by
  constructor
  · have h1 : group_by_date (fun _ => none)
        [{ entry_type := "note", title := "t", content := "c", tags := [],
           files_affected := [], llm_context := none, git_info := none,
           related_entries := [], timestamp := "garbage-timestamp", entry_id := "x" }]
        = sortPairsDesc [("garbage-ti",
            [{ entry_type := "note", title := "t", content := "c", tags := [],
               files_affected := [], llm_context := none, git_info := none,
               related_entries := [], timestamp := "garbage-timestamp", entry_id := "x" }])] := by
      unfold group_by_date
      congr 1
    rw [h1]
    exact List.mergeSort_of_sorted (List.pairwise_singleton _ _)
  · decide

/-- C6 amended: date grouping keys every entry by `date_key`: the
`YYYY-MM-DD` rendering of a parsable timestamp; the first ten characters of
an unparsable non-empty timestamp; and `"unknown"` only for an empty
timestamp. Every entry lands in the group of its key and the groups are
sorted by key strictly descending. -/
theorem c6_date_grouping (parse : String → Option String) (entries : List Entry) :
    List.Pairwise (fun a b => b.1 < a.1) (group_by_date parse entries)
    ∧ (∀ e ∈ entries, ∃ g, (date_key parse e, g) ∈ group_by_date parse entries ∧ e ∈ g)
    ∧ (∀ e : Entry, (∀ d, parse e.timestamp = some d → date_key parse e = d)
        ∧ (parse e.timestamp = none → e.timestamp ≠ "" →
            date_key parse e = String.mk (e.timestamp.toList.take 10))
        ∧ (parse e.timestamp = none → e.timestamp = "" → date_key parse e = "unknown")) := by
  refine ⟨?_, ?_, ?_⟩
  · rw [group_by_date_eq]
    exact sortPairsDesc_sorted_lt _ (dictOfPairs_keys_nodup _)
  · intro e he
    have hpair : (date_key parse e, e) ∈ date_pairs parse entries := by
      unfold date_pairs
      exact List.mem_map_of_mem _ he
    obtain ⟨hk, hv⟩ := mem_valuesFor_of_pair _ _ _ hpair
    exact ⟨valuesFor (date_pairs parse entries) (date_key parse e),
      (pair_mem_group_by_date parse entries _ _).mpr ⟨hk, rfl⟩, hv⟩
  · intro e
    refine ⟨?_, ?_, ?_⟩
    · intro d hd
      unfold date_key
      rw [hd]
    · intro hn hne
      unfold date_key
      rw [hn]
      simp only [if_neg hne]
    · intro hn hne
      unfold date_key
      rw [hn]
      simp only [if_pos hne]

/-- Witness for the amended C6 at a concrete parse oracle and entry list. -/
theorem c6_date_grouping_witness :
    ∃ g, (date_key (fun _ => some "2024-01-01")
        { entry_type := "note", title := "t", content := "c", tags := [],
          files_affected := [], llm_context := none, git_info := none,
          related_entries := [], timestamp := "2024-01-01T10:00:00", entry_id := "x" }, g)
      ∈ group_by_date (fun _ => some "2024-01-01")
        [{ entry_type := "note", title := "t", content := "c", tags := [],
           files_affected := [], llm_context := none, git_info := none,
           related_entries := [], timestamp := "2024-01-01T10:00:00", entry_id := "x" }]
      ∧ ({ entry_type := "note", title := "t", content := "c", tags := [],
           files_affected := [], llm_context := none, git_info := none,
           related_entries := [], timestamp := "2024-01-01T10:00:00", entry_id := "x" } : Entry) ∈ g :=
  (c6_date_grouping (fun _ => some "2024-01-01") _).2.1 _ (List.mem_cons_self _ _)

/-! ### Renderers (`_write_markdown_entry`, `_write_text_entry`,
`_build_markdown_content`, `_build_text_content`) and the JSON export. -/

/-- Python `"c" * n`. -/
def strRepeat (c : Char) (n : Nat) : String := String.mk (List.replicate n c)

/-- The one-line git summary of `_write_markdown_entry`. -/
def git_line_md (gi : GitInfo) : String :=
  "**Git:** " ++ getD gi.current_commit "N/A" ++ " " ++
  "(" ++ getD gi.branch "N/A" ++ ")" ++
  (if truthyBool gi.is_clean then "" else " ⚠️ Cambios pendientes") ++ "\n"

/-- `LLMExporter._write_markdown_entry` (the string its writer emits). -/
def write_markdown_entry (e : Entry) (include_git : Bool) : String :=
  "### " ++ e.title ++ "\n\n"
  ++ "**Tipo:** " ++ e.entry_type ++ "\n"
  ++ "**ID:** " ++ e.entry_id ++ "\n"
  ++ "**Fecha:** " ++ e.timestamp ++ "\n"
  ++ (if e.tags.isEmpty then "" else
      "**Etiquetas:** " ++ String.intercalate ", " e.tags ++ "\n")
  ++ (if e.files_affected.isEmpty then "" else
      "**Archivos:** " ++ String.intercalate ", " e.files_affected ++ "\n")
  ++ (if include_git then
        match e.git_info with
        | some gi => git_line_md gi
        | none => ""
      else "")
  ++ "\n"
  ++ e.content ++ "\n\n"
  ++ (if truthyStr e.llm_context then
      "> **Contexto LLM:** " ++ getD e.llm_context "" ++ "\n\n" else "")
  ++ "---\n\n"

/-- The one-line git summary of `_write_text_entry`. -/
def git_line_text (gi : GitInfo) : String :=
  "Git: " ++ getD gi.current_commit "N/A" ++ " " ++
  "(" ++ getD gi.branch "N/A" ++ ")" ++
  (if truthyBool gi.is_clean then "" else " [CAMBIOS PENDIENTES]") ++ "\n"

/-- `LLMExporter._write_text_entry` (the string its writer emits). -/
def write_text_entry (e : Entry) (include_git : Bool) : String :=
  "ENTRADA: " ++ e.title ++ "\n"
  ++ strRepeat '-' (e.title.length + 9) ++ "\n\n"
  ++ "Tipo: " ++ e.entry_type ++ "\n"
  ++ "ID: " ++ e.entry_id ++ "\n"
  ++ "Fecha: " ++ e.timestamp ++ "\n"
  ++ (if e.tags.isEmpty then "" else
      "Etiquetas: " ++ String.intercalate ", " e.tags ++ "\n")
  ++ (if e.files_affected.isEmpty then "" else
      "Archivos: " ++ String.intercalate ", " e.files_affected ++ "\n")
  ++ (if include_git then
        match e.git_info with
        | some gi => git_line_text gi
        | none => ""
      else "")
  ++ "\n"
  ++ "CONTENIDO:\n" ++ e.content ++ "\n\n"
  ++ (if truthyStr e.llm_context then
      "CONTEXTO LLM: " ++ getD e.llm_context "" ++ "\n\n" else "")
  ++ strRepeat '=' 60 ++ "\n\n"

/-- The per-group entry blocks of `_build_markdown_content`. -/
def md_entries_block (include_git : Bool) (es : List Entry) : String :=
  String.join (es.map (fun e => write_markdown_entry e include_git))

/-- The per-group entry blocks of `_build_text_content`. -/
def text_entries_block (include_git : Bool) (es : List Entry) : String :=
  String.join (es.map (fun e => write_text_entry e include_git))

/-- The grouped part of `_build_markdown_content` (after the header). -/
def md_body (entries : List Entry) (include_git : Bool) (group_by : String)
    (parse : String → Option String) : String :=
  if group_by = "type" then
    String.join ((group_by_type entries).map (fun p =>
      "## " ++ p.1.toUpper ++ "\n\n" ++ md_entries_block include_git p.2 ++ "\n"))
  else if group_by = "date" then
    String.join ((group_by_date parse entries).map (fun p =>
      "## " ++ p.1 ++ "\n\n" ++ md_entries_block include_git p.2 ++ "\n"))
  else if group_by = "tags" then
    String.join ((group_by_tags entries).map (fun p =>
      "## #" ++ p.1 ++ "\n\n" ++ md_entries_block include_git p.2 ++ "\n"))
  else
    String.join (entries.map (fun e => write_markdown_entry e include_git ++ "\n"))

/-- `LLMExporter._build_markdown_content` (`now` stands for
`datetime.now().isoformat()`). -/
def build_markdown_content (projectName now : String) (entries : List Entry)
    (include_git : Bool) (group_by : String) (parse : String → Option String) : String :=
  "# Memoria del Proyecto - Exportación para LLM\n\n"
  ++ "**Generado:** " ++ now ++ "\n"
  ++ "**Total de entradas:** " ++ toString entries.length ++ "\n"
  ++ "**Proyecto:** " ++ projectName ++ "\n\n"
  ++ md_body entries include_git group_by parse

/-- The grouped part of `_build_text_content` (after the header). -/
def text_body (entries : List Entry) (include_git : Bool) (group_by : String)
    (parse : String → Option String) : String :=
  if group_by = "type" then
    String.join ((group_by_type entries).map (fun p =>
      p.1.toUpper ++ "\n" ++ strRepeat '-' p.1.length ++ "\n\n"
      ++ text_entries_block include_git p.2 ++ "\n"))
  else if group_by = "date" then
    String.join ((group_by_date parse entries).map (fun p =>
      p.1 ++ "\n" ++ strRepeat '-' p.1.length ++ "\n\n"
      ++ text_entries_block include_git p.2 ++ "\n"))
  else if group_by = "tags" then
    String.join ((group_by_tags entries).map (fun p =>
      "#" ++ p.1 ++ "\n" ++ strRepeat '-' (p.1.length + 1) ++ "\n\n"
      ++ text_entries_block include_git p.2 ++ "\n"))
  else
    String.join (entries.map (fun e => write_text_entry e include_git ++ "\n"))

/-- `LLMExporter._build_text_content`. -/
def build_text_content (projectName now : String) (entries : List Entry)
    (include_git : Bool) (group_by : String) (parse : String → Option String) : String :=
  "MEMORIA DEL PROYECTO - EXPORTACIÓN PARA LLM\n"
  ++ strRepeat '=' 60 ++ "\n\n"
  ++ "Generado: " ++ now ++ "\n"
  ++ "Total de entradas: " ++ toString entries.length ++ "\n"
  ++ "Proyecto: " ++ projectName ++ "\n\n"
  ++ text_body entries include_git group_by parse

/-- The dictionary produced by `Entry.to_dict` (fixed keys; the `git_info`
entry of the dict is the outer `some`; the removal of the key by
`_export_json` is `none`). -/
structure EntryDict where
  id : String
  timestamp : String
  entry_type : String
  title : String
  content : String
  tags : List String
  files_affected : List String
  llm_context : Option String
  git_info : Option (Option GitInfo)
  related_entries : List String
  deriving DecidableEq

/-- `Entry.to_dict`. -/
def to_dict (e : Entry) : EntryDict :=
  { id := e.entry_id, timestamp := e.timestamp, entry_type := e.entry_type,
    title := e.title, content := e.content, tags := e.tags,
    files_affected := e.files_affected, llm_context := e.llm_context,
    git_info := some e.git_info, related_entries := e.related_entries }

/-- The per-entry body of `_export_json`: `to_dict` with the `git_info` key
deleted when `include_git` is false. -/
def export_json_entry (include_git : Bool) (e : Entry) : EntryDict :=
  let d := to_dict e
  if include_git = false ∧ d.git_info ≠ none then { d with git_info := none } else d

/-- The entry list of the JSON export data. -/
def export_json_entries (include_git : Bool) (entries : List Entry) : List EntryDict :=
  entries.map (export_json_entry include_git)

/-- The export data object written by `_export_json`. -/
structure JsonExport where
  exported_at : String
  project : String
  total_entries : Nat
  format : String
  include_git : Bool
  entries : List EntryDict
  deriving DecidableEq

/-- `LLMExporter._export_json`'s document. -/
def export_json_doc (projectName now : String) (include_git : Bool)
    (entries : List Entry) : JsonExport :=
  { exported_at := now, project := projectName, total_entries := entries.length,
    format := "json", include_git := include_git,
    entries := export_json_entries include_git entries }

/-! ### `export_for_llm` -/

/-- Content of a written export file. -/
inductive FileData
  | text (content : List Char)
  | json (doc : JsonExport)
  deriving DecidableEq

/-- Errors raised by `export_for_llm` (`ValueError` messages in the code). -/
inductive ExportError
  | emptyInput
  | unsupportedFormat (fmt : String)
  deriving DecidableEq

/-- The chunking bound computed by `export_for_llm` from `max_tokens`
(1 token ≈ 4 chars) and `max_chars` (Python truthiness: `None` and `0`
are falsy). -/
def effective_max_chars (max_chars max_tokens : Option Int) : Int :=
  let e1 : Int := 0
  let e2 := match max_tokens with
    | some t => if ¬t = 0 ∧ 0 < t then max e1 (t * 4) else e1
    | none => e1
  match max_chars with
  | some c => if ¬c = 0 ∧ 0 < c then max e2 c else e2
  | none => e2

/-- The `export.max_entries_per_export` re-limit applied when no explicit
`limit` was passed (`entries[-max_entries:]`). -/
def apply_config_limit (limit : Option Int) (config_max : Int)
    (entries : List Entry) : List Entry :=
  match limit with
  | some _ => entries
  | none =>
    if 0 < config_max then entries.drop (entries.length - config_max.toNat) else entries

/-- `LLMExporter._export_markdown`. -/
def export_markdown (export_dir filename projectName now : String)
    (entries : List Entry) (include_git : Bool) (group_by : String)
    (parse : String → Option String) (chunked : Bool) (max_chars : Int) :
    List (String × List Char) × String :=
  let content := build_markdown_content projectName now entries include_git group_by parse
  if chunked ∧ ¬max_chars = 0 ∧ 0 < max_chars then
    write_chunked export_dir filename content.toList "md" max_chars
  else
    ([(export_dir ++ "/" ++ filename ++ ".md", content.toList)],
      export_dir ++ "/" ++ filename ++ ".md")

/-- `LLMExporter._export_text`. -/
def export_text (export_dir filename projectName now : String)
    (entries : List Entry) (include_git : Bool) (group_by : String)
    (parse : String → Option String) (chunked : Bool) (max_chars : Int) :
    List (String × List Char) × String :=
  let content := build_text_content projectName now entries include_git group_by parse
  if chunked ∧ ¬max_chars = 0 ∧ 0 < max_chars then
    write_chunked export_dir filename content.toList "txt" max_chars
  else
    ([(export_dir ++ "/" ++ filename ++ ".txt", content.toList)],
      export_dir ++ "/" ++ filename ++ ".txt")

/-- `LLMExporter.export_for_llm`: the files written (name, content) and the
returned path, or the raised error. The collaborators are parameters: the
filtered entry list from `MemorySystem.list_entries`, the configured
re-limit, the generation timestamp `now` and the derived `filename`. -/
def export_for_llm (export_dir filename projectName now : String)
    (entries : List Entry) (output_format : String) (include_git : Bool)
    (group_by : String) (limit : Option Int) (config_max : Int)
    (chunked : Bool) (max_chars max_tokens : Option Int)
    (parse : String → Option String) :
    Except ExportError (List (String × FileData) × String) :=
  if entries.isEmpty then Except.error ExportError.emptyInput
  else
    let entries2 := apply_config_limit limit config_max entries
    let emc := effective_max_chars max_chars max_tokens
    if output_format = "markdown" then
      let r := export_markdown export_dir filename projectName now entries2
        include_git group_by parse chunked emc
      Except.ok (r.1.map (fun f => (f.1, FileData.text f.2)), r.2)
    else if output_format = "json" then
      Except.ok ([(export_dir ++ "/" ++ filename ++ ".json",
        FileData.json (export_json_doc projectName now include_git entries2))],
        export_dir ++ "/" ++ filename ++ ".json")
    else if output_format = "text" then
      let r := export_text export_dir filename projectName now entries2
        include_git group_by parse chunked emc
      Except.ok (r.1.map (fun f => (f.1, FileData.text f.2)), r.2)
    else Except.error (ExportError.unsupportedFormat output_format)

/-! ### Git omission / noninterference (C8) -/

/-- Replace the git snapshot of an entry (two entry lists "differing only in
their git_info fields" are `entries` and `entries.map (set_git g)`). -/
def set_git (g : Entry → Option GitInfo) (e : Entry) : Entry := { e with git_info := g e }

theorem write_markdown_entry_no_git (g : Entry → Option GitInfo) (e : Entry) :
    write_markdown_entry (set_git g e) false = write_markdown_entry e false := rfl

theorem write_text_entry_no_git (g : Entry → Option GitInfo) (e : Entry) :
    write_text_entry (set_git g e) false = write_text_entry e false := rfl

theorem export_json_entry_git_none (e : Entry) :
    (export_json_entry false e).git_info = none := rfl

theorem export_json_entry_no_git (g : Entry → Option GitInfo) (e : Entry) :
    export_json_entry false (set_git g e) = export_json_entry false e := rfl

theorem dictAppend_map_values (f : Entry → Entry) (acc : List (String × List Entry))
    (k : String) (e : Entry) :
    dictAppend (acc.map (fun p => (p.1, p.2.map f))) k (f e) =
      (dictAppend acc k e).map (fun p => (p.1, p.2.map f)) := by
  induction acc with
  | nil => rfl
  | cons p rest ih =>
    obtain ⟨k2, es⟩ := p
    by_cases hk : k2 = k
    · simp only [List.map_cons, dictAppend, if_pos hk, List.map_append, List.map_nil]
    · simp only [List.map_cons, dictAppend, if_neg hk, ih]

theorem dictOfPairs_map_values (f : Entry → Entry) (ps : List (String × Entry)) :
    dictOfPairs (ps.map (fun p => (p.1, f p.2))) =
      (dictOfPairs ps).map (fun p => (p.1, p.2.map f)) := by
  suffices h : ∀ acc : List (String × List Entry),
      (ps.map (fun p => (p.1, f p.2))).foldl (fun acc p => dictAppend acc p.1 p.2)
        (acc.map (fun p => (p.1, p.2.map f))) =
      (ps.foldl (fun acc p => dictAppend acc p.1 p.2) acc).map (fun p => (p.1, p.2.map f)) by
    have h0 := h []
    simpa [dictOfPairs] using h0
  induction ps with
  | nil => intro acc; rfl
  | cons p ps ih =>
    intro acc
    simp only [List.map_cons, List.foldl_cons]
    rw [dictAppend_map_values f acc p.1 p.2]
    exact ih (dictAppend acc p.1 p.2)

theorem type_pairs_map_git (g : Entry → Option GitInfo) (entries : List Entry) :
    type_pairs (entries.map (set_git g)) =
      (type_pairs entries).map (fun p => (p.1, set_git g p.2)) := by
  unfold type_pairs
  rw [List.map_map, List.map_map]
  exact List.map_congr_left (fun e _ => rfl)

theorem date_pairs_map_git (parse : String → Option String) (g : Entry → Option GitInfo)
    (entries : List Entry) :
    date_pairs parse (entries.map (set_git g)) =
      (date_pairs parse entries).map (fun p => (p.1, set_git g p.2)) := by
  unfold date_pairs
  rw [List.map_map, List.map_map]
  exact List.map_congr_left (fun e _ => rfl)

theorem tag_pairs_map_git (g : Entry → Option GitInfo) (entries : List Entry) :
    tag_pairs (entries.map (set_git g)) =
      (tag_pairs entries).map (fun p => (p.1, set_git g p.2)) := by
  unfold tag_pairs
  induction entries with
  | nil => rfl
  | cons e es ih =>
    simp only [List.map_cons, List.flatMap_cons, List.map_append, ih]
    congr 1
    rw [List.map_map]
    exact List.map_congr_left (fun t _ => rfl)

theorem group_by_type_map_git (g : Entry → Option GitInfo) (entries : List Entry) :
    group_by_type (entries.map (set_git g)) =
      (group_by_type entries).map (fun p => (p.1, p.2.map (set_git g))) := by
  rw [group_by_type_eq, group_by_type_eq, type_pairs_map_git, dictOfPairs_map_values]
  exact sortPairsAsc_map (fun p => (p.1, p.2.map (set_git g))) (fun p => rfl) _
    (dictOfPairs_keys_nodup _)

theorem group_by_date_map_git (parse : String → Option String) (g : Entry → Option GitInfo)
    (entries : List Entry) :
    group_by_date parse (entries.map (set_git g)) =
      (group_by_date parse entries).map (fun p => (p.1, p.2.map (set_git g))) := by
  rw [group_by_date_eq, group_by_date_eq, date_pairs_map_git, dictOfPairs_map_values]
  exact sortPairsDesc_map (fun p => (p.1, p.2.map (set_git g))) (fun p => rfl) _
    (dictOfPairs_keys_nodup _)

theorem group_by_tags_map_git (g : Entry → Option GitInfo) (entries : List Entry) :
    group_by_tags (entries.map (set_git g)) =
      (group_by_tags entries).map (fun p => (p.1, p.2.map (set_git g))) := by
  rw [group_by_tags_eq, group_by_tags_eq, tag_pairs_map_git, dictOfPairs_map_values]
  exact sortPairsAsc_map (fun p => (p.1, p.2.map (set_git g))) (fun p => rfl) _
    (dictOfPairs_keys_nodup _)

theorem md_entries_block_no_git (g : Entry → Option GitInfo) (es : List Entry) :
    md_entries_block false (es.map (set_git g)) = md_entries_block false es := by
  unfold md_entries_block
  rw [List.map_map]
  exact congrArg String.join (List.map_congr_left (fun e _ => rfl))

theorem text_entries_block_no_git (g : Entry → Option GitInfo) (es : List Entry) :
    text_entries_block false (es.map (set_git g)) = text_entries_block false es := by
  unfold text_entries_block
  rw [List.map_map]
  exact congrArg String.join (List.map_congr_left (fun e _ => rfl))

theorem join_map_map_eq {α : Type} (F : α → α) (r : α → String) (l : List α)
    (h : ∀ a ∈ l, r (F a) = r a) :
    String.join ((l.map F).map r) = String.join (l.map r) := by
  rw [List.map_map]
  exact congrArg String.join (List.map_congr_left (fun a ha => h a ha))

theorem md_body_no_git (g : Entry → Option GitInfo) (entries : List Entry)
    (group_by : String) (parse : String → Option String) :
    md_body (entries.map (set_git g)) false group_by parse =
      md_body entries false group_by parse := by
  unfold md_body
  by_cases h1 : group_by = "type"
  · simp only [if_pos h1, group_by_type_map_git]
    exact join_map_map_eq _ _ _ (fun p _ => by
      show "## " ++ p.1.toUpper ++ "\n\n" ++ md_entries_block false (p.2.map (set_git g)) ++ "\n" = _
      rw [md_entries_block_no_git])
  · simp only [if_neg h1]
    by_cases h2 : group_by = "date"
    · simp only [if_pos h2, group_by_date_map_git]
      exact join_map_map_eq _ _ _ (fun p _ => by
        show "## " ++ p.1 ++ "\n\n" ++ md_entries_block false (p.2.map (set_git g)) ++ "\n" = _
        rw [md_entries_block_no_git])
    · simp only [if_neg h2]
      by_cases h3 : group_by = "tags"
      · simp only [if_pos h3, group_by_tags_map_git]
        exact join_map_map_eq _ _ _ (fun p _ => by
          show "## #" ++ p.1 ++ "\n\n" ++ md_entries_block false (p.2.map (set_git g)) ++ "\n" = _
          rw [md_entries_block_no_git])
      · simp only [if_neg h3]
        exact join_map_map_eq _ _ _ (fun e _ => by
          show write_markdown_entry (set_git g e) false ++ "\n" = _
          rw [write_markdown_entry_no_git])

theorem text_body_no_git (g : Entry → Option GitInfo) (entries : List Entry)
    (group_by : String) (parse : String → Option String) :
    text_body (entries.map (set_git g)) false group_by parse =
      text_body entries false group_by parse := by
  unfold text_body
  by_cases h1 : group_by = "type"
  · simp only [if_pos h1, group_by_type_map_git]
    exact join_map_map_eq _ _ _ (fun p _ => by
      show p.1.toUpper ++ "\n" ++ strRepeat '-' p.1.length ++ "\n\n"
          ++ text_entries_block false (p.2.map (set_git g)) ++ "\n" = _
      rw [text_entries_block_no_git])
  · simp only [if_neg h1]
    by_cases h2 : group_by = "date"
    · simp only [if_pos h2, group_by_date_map_git]
      exact join_map_map_eq _ _ _ (fun p _ => by
        show p.1 ++ "\n" ++ strRepeat '-' p.1.length ++ "\n\n"
            ++ text_entries_block false (p.2.map (set_git g)) ++ "\n" = _
        rw [text_entries_block_no_git])
    · simp only [if_neg h2]
      by_cases h3 : group_by = "tags"
      · simp only [if_pos h3, group_by_tags_map_git]
        exact join_map_map_eq _ _ _ (fun p _ => by
          show "#" ++ p.1 ++ "\n" ++ strRepeat '-' (p.1.length + 1) ++ "\n\n"
              ++ text_entries_block false (p.2.map (set_git g)) ++ "\n" = _
          rw [text_entries_block_no_git])
      · simp only [if_neg h3]
        exact join_map_map_eq _ _ _ (fun e _ => by
          show write_text_entry (set_git g e) false ++ "\n" = _
          rw [write_text_entry_no_git])

/-- C8: with `include_git = false`, the exported content does not depend on
the entries' git snapshots: replacing every entry's `git_info` arbitrarily
leaves the rendered markdown document, the rendered text document and the
JSON export object unchanged (same generation timestamp), and every exported
JSON entry has its `git_info` key removed. -/
theorem c8_git_omission (projectName now group_by : String)
    (parse : String → Option String) (entries : List Entry)
    (g : Entry → Option GitInfo) :
    build_markdown_content projectName now (entries.map (set_git g)) false group_by parse
      = build_markdown_content projectName now entries false group_by parse
    ∧ build_text_content projectName now (entries.map (set_git g)) false group_by parse
      = build_text_content projectName now entries false group_by parse
    ∧ export_json_doc projectName now false (entries.map (set_git g))
      = export_json_doc projectName now false entries
    ∧ ∀ d ∈ export_json_entries false entries, d.git_info = none := by
  refine ⟨?_, ?_, ?_, ?_⟩
  · unfold build_markdown_content
    rw [List.length_map, md_body_no_git]
  · unfold build_text_content
    rw [List.length_map, text_body_no_git]
  · unfold export_json_doc export_json_entries
    rw [List.length_map, List.map_map]
    have hmap : List.map (export_json_entry false ∘ set_git g) entries =
        List.map (export_json_entry false) entries :=
      List.map_congr_left (fun e _ => rfl)
    rw [hmap]
  · intro d hd
    rcases List.mem_map.mp hd with ⟨e, _, rfl⟩
    exact export_json_entry_git_none e

/-- A concrete git snapshot for the C8 witness. -/
def sample_git : GitInfo :=
  { current_commit := some "abc", branch := some "main", is_clean := some false }

/-- Witness for C8 at a concrete entry list and git replacement. -/
theorem c8_git_omission_witness :
    build_markdown_content "proj" "now"
        ([{ entry_type := "note", title := "t", content := "c", tags := [],
            files_affected := [], llm_context := none, git_info := none,
            related_entries := [], timestamp := "2024-01-01", entry_id := "x" }].map
          (set_git (fun _ => some sample_git)))
        false "type" (fun _ => none)
      = build_markdown_content "proj" "now"
        [{ entry_type := "note", title := "t", content := "c", tags := [],
           files_affected := [], llm_context := none, git_info := none,
           related_entries := [], timestamp := "2024-01-01", entry_id := "x" }]
        false "type" (fun _ => none) :=
  (c8_git_omission "proj" "now" "type" (fun _ => none) _ _).1

/-! ### Claim C9: error taxonomy of `export_for_llm` -/

/-- C9 counterexample: with an empty entry list and the unsupported format
`"xml"`, `export_for_llm` raises EmptyInput, not UnsupportedFormat — the
emptiness check precedes the format check, so "UnsupportedFormat exactly when
the format is unrecognized" fails. -/
theorem c9_counterexample :
    export_for_llm "export" "f" "proj" "now" [] "xml" true "type" none 0 false none none
      (fun _ => none) = Except.error ExportError.emptyInput
    ∧ ExportError.emptyInput ≠ ExportError.unsupportedFormat "xml" :=
  ⟨rfl, by decide⟩

/-- C9 amended: EmptyInput is raised exactly when the entry sequence is
empty; UnsupportedFormat is raised exactly when the entry sequence is
non-empty and the requested format is none of markdown, json, text (the
emptiness check runs first). Both checks precede any file write, which the
model reflects by returning no file list in the error cases. -/
theorem c9_error_taxonomy (export_dir filename projectName now : String)
    (entries : List Entry) (output_format : String) (include_git : Bool)
    (group_by : String) (limit : Option Int) (config_max : Int) (chunked : Bool)
    (max_chars max_tokens : Option Int) (parse : String → Option String) :
    (export_for_llm export_dir filename projectName now entries output_format include_git
        group_by limit config_max chunked max_chars max_tokens parse
      = Except.error ExportError.emptyInput ↔ entries = [])
    ∧ ∀ fmt, (export_for_llm export_dir filename projectName now entries output_format
        include_git group_by limit config_max chunked max_chars max_tokens parse
      = Except.error (ExportError.unsupportedFormat fmt) ↔
        (entries ≠ [] ∧ fmt = output_format ∧ output_format ≠ "markdown"
          ∧ output_format ≠ "json" ∧ output_format ≠ "text")) := by
  unfold export_for_llm
  by_cases he : entries.isEmpty
  · rw [if_pos he]
    have he2 : entries = [] := by
      cases entries with
      | nil => rfl
      | cons a l => simp [List.isEmpty] at he
    subst he2
    constructor
    · simp
    · intro fmt
      simp
  · rw [if_neg he]
    have he2 : entries ≠ [] := by
      cases entries with
      | nil => simp [List.isEmpty] at he
      | cons a l => simp
    by_cases h1 : output_format = "markdown"
    · simp [if_pos h1, h1, he2]
    · rw [if_neg h1]
      by_cases h2 : output_format = "json"
      · simp [if_pos h2, h2, he2]
      · rw [if_neg h2]
        by_cases h3 : output_format = "text"
        · simp [if_pos h3, h3, he2]
        · rw [if_neg h3]
          constructor
          · simp [he2]
          · intro fmt
            simp [he2, h1, h2, h3, eq_comm]

/-! ### Claim C10: an entry with no tags is invisible under tag grouping -/

theorem tag_pairs_filter (entries : List Entry) :
    tag_pairs (entries.filter (fun x => !x.tags.isEmpty)) = tag_pairs entries := by
  induction entries with
  | nil => rfl
  | cons e es ih =>
    have hcons : ∀ l : List Entry,
        tag_pairs (e :: l) = e.tags.map (fun t => (t, e)) ++ tag_pairs l := by
      intro l
      unfold tag_pairs
      rw [List.flatMap_cons]
    by_cases h : e.tags.isEmpty
    · have htags : e.tags = [] := by
        cases hx : e.tags with
        | nil => rfl
        | cons a l => rw [hx] at h; simp [List.isEmpty] at h
      have h1 : (e :: es).filter (fun x => !x.tags.isEmpty)
          = es.filter (fun x => !x.tags.isEmpty) :=
        List.filter_cons_of_neg (by simp [h])
      rw [h1, hcons, htags, List.map_nil, List.nil_append, ih]
    · have h1 : (e :: es).filter (fun x => !x.tags.isEmpty)
          = e :: es.filter (fun x => !x.tags.isEmpty) :=
        List.filter_cons_of_pos (by simp [h])
      rw [h1, hcons, hcons, ih]

theorem md_body_tags (entries : List Entry) (include_git : Bool)
    (parse : String → Option String) :
    md_body entries include_git "tags" parse =
      String.join ((group_by_tags entries).map (fun p =>
        "## #" ++ p.1 ++ "\n\n" ++ md_entries_block include_git p.2 ++ "\n")) := by
  unfold md_body
  rw [if_neg (by decide), if_neg (by decide), if_pos rfl]

theorem text_body_tags (entries : List Entry) (include_git : Bool)
    (parse : String → Option String) :
    text_body entries include_git "tags" parse =
      String.join ((group_by_tags entries).map (fun p =>
        "#" ++ p.1 ++ "\n" ++ strRepeat '-' (p.1.length + 1) ++ "\n\n"
        ++ text_entries_block include_git p.2 ++ "\n")) := by
  unfold text_body
  rw [if_neg (by decide), if_neg (by decide), if_pos rfl]

/-- C10: an entry whose tag list is empty is placed into no tag group, the
tags-mode rendered bodies (markdown and text) are unchanged when all such
entries are removed (so the entry's title, id and content never reach the
tags-grouped document), yet the entry does appear in its type group, in its
date group, and in the JSON export (which ignores grouping). -/
theorem c10_empty_tags_invisible (entries : List Entry) (e : Entry)
    (he : e ∈ entries) (ht : e.tags = []) :
    (∀ t g, (t, g) ∈ group_by_tags entries → e ∉ g)
    ∧ (∀ include_git parse,
        md_body (entries.filter (fun x => !x.tags.isEmpty)) include_git "tags" parse
          = md_body entries include_git "tags" parse)
    ∧ (∀ include_git parse,
        text_body (entries.filter (fun x => !x.tags.isEmpty)) include_git "tags" parse
          = text_body entries include_git "tags" parse)
    ∧ (∃ g, (e.entry_type, g) ∈ group_by_type entries ∧ e ∈ g)
    ∧ (∀ parse, ∃ g, (date_key parse e, g) ∈ group_by_date parse entries ∧ e ∈ g)
    ∧ ∀ include_git, export_json_entry include_git e ∈ export_json_entries include_git entries := by
  refine ⟨?_, ?_, ?_, ?_, ?_, ?_⟩
  · intro t g hg hmem
    obtain ⟨_, hv⟩ := (pair_mem_group_by_tags entries t g).mp hg
    rw [hv] at hmem
    unfold valuesFor at hmem
    rcases List.mem_map.mp hmem with ⟨p, hp, hpe⟩
    have hp2 := List.mem_filter.mp hp
    rcases List.mem_flatMap.mp hp2.1 with ⟨e2, _, hpe2⟩
    rcases List.mem_map.mp hpe2 with ⟨t2, ht2, hteq⟩
    have he2 : e2 = e := by rw [← hteq] at hpe; exact hpe
    rw [he2, ht] at ht2
    exact List.not_mem_nil t2 ht2
  · intro include_git parse
    rw [md_body_tags, md_body_tags, group_by_tags_eq, group_by_tags_eq, tag_pairs_filter]
  · intro include_git parse
    rw [text_body_tags, text_body_tags, group_by_tags_eq, group_by_tags_eq, tag_pairs_filter]
  · have hpair : (e.entry_type, e) ∈ type_pairs entries := by
      unfold type_pairs
      exact List.mem_map_of_mem _ he
    obtain ⟨hk, hv⟩ := mem_valuesFor_of_pair _ _ _ hpair
    exact ⟨valuesFor (type_pairs entries) e.entry_type,
      (pair_mem_group_by_type entries _ _).mpr ⟨hk, rfl⟩, hv⟩
  · intro parse
    have hpair : (date_key parse e, e) ∈ date_pairs parse entries := by
      unfold date_pairs
      exact List.mem_map_of_mem _ he
    obtain ⟨hk, hv⟩ := mem_valuesFor_of_pair _ _ _ hpair
    exact ⟨valuesFor (date_pairs parse entries) (date_key parse e),
      (pair_mem_group_by_date parse entries _ _).mpr ⟨hk, rfl⟩, hv⟩
  · intro include_git
    exact List.mem_map_of_mem _ he

/-- Witness for C10: the concrete tagless entry is not in the `"a"` tag
group of a two-entry list. -/
theorem c10_empty_tags_invisible_witness :
    ({ entry_type := "note", title := "untagged", content := "c0", tags := [],
       files_affected := [], llm_context := none, git_info := none,
       related_entries := [], timestamp := "2024-01-01", entry_id := "u" } : Entry)
      ∉ [({ entry_type := "note", title := "tagged", content := "c1", tags := ["a"],
            files_affected := [], llm_context := none, git_info := none,
            related_entries := [], timestamp := "2024-01-02", entry_id := "v" } : Entry)] :=
  (c10_empty_tags_invisible
      [{ entry_type := "note", title := "untagged", content := "c0", tags := [],
         files_affected := [], llm_context := none, git_info := none,
         related_entries := [], timestamp := "2024-01-01", entry_id := "u" },
       { entry_type := "note", title := "tagged", content := "c1", tags := ["a"],
         files_affected := [], llm_context := none, git_info := none,
         related_entries := [], timestamp := "2024-01-02", entry_id := "v" }]
      _ (List.mem_cons_self _ _) rfl).1 "a"
    [{ entry_type := "note", title := "tagged", content := "c1", tags := ["a"],
       files_affected := [], llm_context := none, git_info := none,
       related_entries := [], timestamp := "2024-01-02", entry_id := "v" }]
    ((pair_mem_group_by_tags _ "a" _).mpr (by decide))

end MemoriaCursor
